import Mathlib

/-!
Verification of the address-book store in src/AddresBook_Levenshtein.py.

The Python classes are embedded shallowly: a Phone/Email/Note object is
represented by its identity paired with its `value` string (Field defines
no `__eq__`, so `==` on these objects is identity), ordered Python lists
by `List`, the `dict` backing `AddressBook` (`UserDict.data`) by an
insertion-ordered association list, and the Python `set` `free_ids` by a
`Finset ℕ`. Operations that can raise (`list.remove`, `datetime.replace`)
return `Except` or an error constructor; operations that only print a
message alongside their effect return the effect together with a
`Bool`/`Option` describing what was reported.
-/

/-- Address field (class Address, lines 52-58): four components; the
derived `value` string is presentation-only and omitted. -/
structure Address where
  street : String
  city : String
  postal_code : String
  country : String
deriving DecidableEq

/-- A Phone, Email or Note object (class Field, lines 8-11). Field defines
no `__eq__`, so Python's `==` on these objects compares identity, not the
wrapped value: an object is modelled as its identity (`id()`) paired with
its `value` string, and object equality is equality of the pair — aliases
of one object repeat the same pair, while distinct objects bear distinct
identities even when their values coincide. -/
structure FieldObj where
  oid : Nat
  value : String
deriving DecidableEq

/-- class Record (lines 67-76): id is `None` until the store assigns it;
phones, emails and notes are insertion-ordered lists of Field objects;
tags carry only their label here; at most one birthday (the validated
`YYYY-MM-DD` string) and at most one address. -/
structure Record where
  id : Option Nat
  name : String
  phones : List FieldObj
  emails : List FieldObj
  birthday : Option String
  address : Option Address
  tags : List String
  notes : List FieldObj
deriving DecidableEq

/-- Python `list.remove(x)` (used at lines 88, 101, 124): drop the first
element for which `element == x`, raising `ValueError` when none matches.
At `FieldObj` this `==` is object identity, see `FieldObj`. -/
def pyRemove [DecidableEq α] : List α → α → Except String (List α)
  | [], _ => .error "ValueError: list.remove(x): x not in list"
  | y :: ys, x => if y = x then .ok ys else (pyRemove ys x).map (y :: ·)

/-- Record.add_phone (lines 82-84): `list.append`. -/
def Record.add_phone (r : Record) (phone : FieldObj) : Record :=
  { r with phones := r.phones ++ [phone] }

/-- Record.remove_phone (lines 86-88): `list.remove` of the given Phone
object. -/
def Record.remove_phone (r : Record) (phone : FieldObj) : Except String Record :=
  (pyRemove r.phones phone).map fun l => { r with phones := l }

/-- Record.edit_phone (lines 90-93): remove the old object, then append
the new one. -/
def Record.edit_phone (r : Record) (old_phone new_phone : FieldObj) : Except String Record :=
  (r.remove_phone old_phone).map fun r2 => r2.add_phone new_phone

/-- Record.add_email (lines 95-97). -/
def Record.add_email (r : Record) (email : FieldObj) : Record :=
  { r with emails := r.emails ++ [email] }

/-- Record.remove_email (lines 99-101). -/
def Record.remove_email (r : Record) (email : FieldObj) : Except String Record :=
  (pyRemove r.emails email).map fun l => { r with emails := l }

/-- Record.edit_email (lines 103-106). -/
def Record.edit_email (r : Record) (old_email new_email : FieldObj) : Except String Record :=
  (r.remove_email old_email).map fun r2 => r2.add_email new_email

/-- Record.add_note (lines 118-120). -/
def Record.add_note (r : Record) (note : FieldObj) : Record :=
  { r with notes := r.notes ++ [note] }

/-- Record.remove_note (lines 122-124). -/
def Record.remove_note (r : Record) (note : FieldObj) : Except String Record :=
  (pyRemove r.notes note).map fun l => { r with notes := l }

/-- Record.edit_note (lines 126-129): remove the old object, then append
the new one. -/
def Record.edit_note (r : Record) (old_note new_note : FieldObj) : Except String Record :=
  (r.remove_note old_note).map fun r2 => r2.add_note new_note

/-- class AddressBook (lines 154-158): the `UserDict` mapping as an
insertion-ordered association list, plus the allocator state. -/
structure AddressBook where
  data : List (Nat × Record)
  next_id : Nat
  free_ids : Finset Nat
deriving DecidableEq

/-- The identifiers currently mapped to a record. -/
def AddressBook.liveIds (b : AddressBook) : Finset Nat :=
  (b.data.map Prod.fst).toFinset

/-- AddressBook.__init__ (lines 155-158): empty mapping, next_id = 1,
free_ids = ∅. -/
def AddressBook.emptyBook : AddressBook := ⟨[], 1, ∅⟩

/-- Python `dict.__setitem__` on an insertion-ordered dict: overwrite in
place when the key is present, append otherwise (line 170). -/
def dictInsert (k : Nat) (v : Record) : List (Nat × Record) → List (Nat × Record)
  | [] => [(k, v)]
  | p :: ps => if p.1 = k then (k, v) :: ps else p :: dictInsert k v ps

/-- Python `del dict[k]` (line 181): remove the entry with key `k` (dict
keys are unique, so the first matching entry). -/
def dictErase (k : Nat) : List (Nat × Record) → List (Nat × Record)
  | [] => []
  | p :: ps => if p.1 = k then ps else p :: dictErase k ps

/-- Python `k in dict` (line 180). -/
def dictContains (k : Nat) (l : List (Nat × Record)) : Bool :=
  l.any fun p => p.1 == k

/-- The while loop of add_record (lines 162-163): advance `next_id` while
it collides with a live id or a pooled free id. `fuel` bounds the
iterations; `occupied.card + 1` is always enough, since each iteration
consumes a distinct member of `occupied` at or above the start. -/
def advanceId (occupied : Finset Nat) : Nat → Nat → Nat
  | 0, n => n
  | fuel + 1, n => if n ∈ occupied then advanceId occupied fuel (n + 1) else n

/-- AddressBook.add_record (lines 160-171): advance `next_id` past
collisions, then assign the minimum pooled free id when the pool is
non-empty, else assign `next_id` and increment it; insert the stamped
record. Returns the new store and the assigned id. -/
def AddressBook.add_record (b : AddressBook) (record : Record) : AddressBook × Nat :=
  let occupied := b.liveIds ∪ b.free_ids
  let n := advanceId occupied (occupied.card + 1) b.next_id
  if h : b.free_ids.Nonempty then
    let i := b.free_ids.min' h
    (⟨dictInsert i { record with id := some i } b.data, n, b.free_ids.erase i⟩, i)
  else
    (⟨dictInsert n { record with id := some n } b.data, n + 1, b.free_ids⟩, n)

/-- AddressBook.delete_record_by_id, core after int parsing (lines
179-185): when the id is mapped, delete it and return it to the pool
(`true` = deleted); otherwise report "not found" with no mutation
(`false`). -/
def AddressBook.delete_record_by_id (b : AddressBook) (record_id : Nat) : AddressBook × Bool :=
  if dictContains record_id b.data then
    (⟨dictErase record_id b.data, b.next_id, insert record_id b.free_ids⟩, true)
  else
    (b, false)

/-- One store operation of the insert/delete lifecycle. -/
inductive BookOp where
  | add (record : Record)
  | delete (record_id : Nat)

/-- Apply one operation, keeping only the store. -/
def stepOp (b : AddressBook) : BookOp → AddressBook
  | .add r => (b.add_record r).1
  | .delete i => (b.delete_record_by_id i).1

/-- Run a sequence of operations from a fresh store. -/
def runOps (ops : List BookOp) : AddressBook :=
  ops.foldl stepOp AddressBook.emptyBook

/-- The allocator invariant of reachable stores: every live or pooled id is
below `next_id`, the pool is disjoint from the live ids, and the mapping's
keys are unique (a dict). -/
def BookInv (b : AddressBook) : Prop :=
  (∀ i ∈ b.liveIds, i < b.next_id) ∧ (∀ i ∈ b.free_ids, i < b.next_id) ∧
    b.free_ids ∩ b.liveIds = ∅ ∧ (b.data.map Prod.fst).Nodup

instance (b : AddressBook) : Decidable (BookInv b) := by
  unfold BookInv; infer_instance

/-- A bare record as the CLI's create_record builds it, before insertion. -/
def mkNamedRecord (nm : String) : Record :=
  ⟨none, nm, [], [], none, none, [], []⟩

example : (AddressBook.emptyBook.add_record (mkNamedRecord "A")).2 = 1 := by decide
example :
    ((AddressBook.emptyBook.add_record (mkNamedRecord "A")).1.add_record
      (mkNamedRecord "B")).2 = 2 := by decide

/-- Python `needle in hay` on strings: substring containment. -/
def pyIn (needle hay : String) : Bool :=
  decide (needle.toList <:+: hay.toList)

/-- Python `str.lower()`, character-wise. -/
def pyLower (s : String) : List Char :=
  s.toList.map Char.toLower

/-- The name test of find_record (line 193): case-insensitive containment. -/
def nameMatches (term : String) (r : Record) : Bool :=
  decide (pyLower term <:+: pyLower r.name)

/-- The phone loop of find_record (lines 196-199): case-sensitive
containment in some phone's value. -/
def phoneMatches (term : String) (r : Record) : Bool :=
  r.phones.any fun p => pyIn term p.value

/-- The email loop of find_record (lines 200-203). -/
def emailMatches (term : String) (r : Record) : Bool :=
  r.emails.any fun e => pyIn term e.value

/-- What one loop iteration of find_record (lines 192-203) appends for one
record: the name match appends once and skips the rest (`continue`); else
the phone loop appends at most once (`break`) and the email loop, not
skipped, appends at most once more. -/
def findContrib (term : String) (r : Record) : List Record :=
  if nameMatches term r then [r]
  else
    (if phoneMatches term r then [r] else []) ++
      (if emailMatches term r then [r] else [])

/-- AddressBook.find_record (lines 189-204), over `data.values()` in
mapping order. -/
def AddressBook.find_record (b : AddressBook) (search_term : String) : List Record :=
  b.data.flatMap fun p => findContrib search_term p.2

/-- Modelled from the spec: the external library function
`Levenshtein.distance` (imported at line 6) is not part of this
repository; per the spec it is the minimum number of single-character
insertions, deletions and substitutions transforming one string into the
other — Mathlib's Levenshtein distance with all edit costs equal to 1. -/
def levenshtein_distance (a b : List Char) : Nat :=
  levenshtein Levenshtein.defaultCost a b

/-- `Levenshtein.distance` on strings. -/
def levenshteinStr (a b : String) : Nat :=
  levenshtein_distance a.toList b.toList

/-- Python `min(iterable, key=f)`: scan left to right, keeping the current
best and replacing it only on a strictly smaller key, so the first element
attaining the minimum wins. -/
def pyMinBy (f : α → Nat) (x : α) (xs : List α) : α :=
  xs.foldl (fun best y => if f y < f best then y else best) x

/-- suggest_correction_name (lines 259-261): the name of the candidate
whose name is nearest to the query by Levenshtein distance; `none` models
the ValueError Python's `min` raises on an empty sequence. -/
def suggest_correction_name (name_to_edit : String) (matching_records : List (Nat × Record)) :
    Option String :=
  match matching_records with
  | [] => none
  | x :: xs =>
    some (pyMinBy (fun p => levenshteinStr name_to_edit p.2.name) x xs).2.name

example : levenshteinStr "kot" "koty" = 1 := by decide
example : levenshteinStr "abc" "adc" = 1 := by decide
example :
    suggest_correction_name "ab"
      [(1, mkNamedRecord "ad"), (2, mkNamedRecord "ab")] = some "ab" := by decide
example : pyIn "ann" "johanna" = true := by decide
example : nameMatches "ANN" (mkNamedRecord "Johanna") = true := by decide

/-- Python `str.split` on a single separator character. -/
def splitOnChar (c : Char) : List Char → List (List Char)
  | [] => [[]]
  | x :: xs =>
    let r := splitOnChar c xs
    if x = c then [] :: r
    else
      match r with
      | [] => [[x]]
      | g :: gs => (x :: g) :: gs

/-- A non-empty all-digit group as a number. -/
def charsToNat? (l : List Char) : Option Nat :=
  if l ≠ [] ∧ l.all Char.isDigit then
    some (l.foldl (fun a c => 10 * a + (c.toNat - 48)) 0)
  else none

/-- The proleptic Gregorian leap-year rule `datetime` uses. -/
def isLeapYear (y : Nat) : Bool :=
  y % 4 = 0 && (y % 100 ≠ 0 || y % 400 = 0)

/-- Length of month `m` (1-12) in year `y`. -/
def daysInMonth (y m : Nat) : Nat :=
  if m = 2 then if isLeapYear y then 29 else 28
  else if m = 4 ∨ m = 6 ∨ m = 9 ∨ m = 11 then 30
  else 31

/-- Days in the months of year `y` strictly before month `m`. -/
def daysBeforeMonth (y m : Nat) : Nat :=
  ((List.range (m - 1)).map fun i => daysInMonth y (i + 1)).sum

/-- The proleptic Gregorian ordinal of a date, as in
`datetime.toordinal`: day 1 is 0001-01-01. -/
def toOrdinal (y m d : Nat) : Nat :=
  365 * (y - 1) + (y - 1) / 4 - (y - 1) / 100 + (y - 1) / 400 + daysBeforeMonth y m + d

/-- A `datetime.datetime` value at second granularity: a calendar date
plus the seconds elapsed since that day's midnight. -/
structure PyDateTime where
  year : Nat
  month : Nat
  day : Nat
  secondsInDay : Nat
deriving DecidableEq

/-- Seconds since the proleptic epoch; `datetime` comparison and
subtraction both agree with this linearisation. -/
def PyDateTime.toSeconds (t : PyDateTime) : Nat :=
  86400 * toOrdinal t.year t.month t.day + t.secondsInDay

/-- `datetime.strptime(value, "%Y-%m-%d")` (line 136): strict
year-month-day parse of a calendar date, `none` for the ValueError. -/
def parseDateYMD (s : String) : Option (Nat × Nat × Nat) :=
  match (splitOnChar '-' s.toList).map charsToNat? with
  | [some y, some m, some d] =>
    if 1 ≤ m ∧ m ≤ 12 ∧ 1 ≤ d ∧ d ≤ daysInMonth y m then some (y, m, d) else none
  | _ => none

/-- The outcome of Record.days_to_birthday: the no-birthday sentinel, an
uncaught ValueError (from `strptime` or from `replace`), or a day count. -/
inductive DaysToBirthdayResult where
  | noBirthday
  | valueError
  | days (n : Int)
deriving DecidableEq

/-- Record.days_to_birthday (lines 131-140) with the reference time
`today` passed explicitly in place of `datetime.now()`: without a (truthy)
birthday return the "Brak daty urodzenia" sentinel; otherwise parse the
birthday and place it in `today`'s year — `bday.replace(year=...)` (line
137) raises ValueError when that month/day does not exist in the target
year (Feb 29 outside a leap year), as does the advance to `today`'s next
year (line 139); otherwise advance one year when `today` is strictly past
the candidate and return the `timedelta.days` of the difference, which
floors toward minus infinity over 86400-second days. -/
def days_to_birthday (birthday : Option String) (today : PyDateTime) : DaysToBirthdayResult :=
  match birthday with
  | none => .noBirthday
  | some s =>
    if s = "" then .noBirthday
    else
      match parseDateYMD s with
      | none => .valueError
      | some (_, bm, bd) =>
        if bd ≤ daysInMonth today.year bm then
          let nb : PyDateTime := ⟨today.year, bm, bd, 0⟩
          if nb.toSeconds < today.toSeconds then
            if bd ≤ daysInMonth (today.year + 1) bm then
              .days (Int.fdiv (((⟨today.year + 1, bm, bd, 0⟩ : PyDateTime).toSeconds : Int) -
                (today.toSeconds : Int)) 86400)
            else .valueError
          else
            .days (Int.fdiv ((nb.toSeconds : Int) - (today.toSeconds : Int)) 86400)
        else .valueError

example : parseDateYMD "2000-01-01" = some (2000, 1, 1) := by decide
example :
    days_to_birthday (some "2000-01-01") ⟨2024, 1, 2, 0⟩ = .days 365 := by decide
example :
    days_to_birthday (some "2000-01-01") ⟨2024, 1, 2, 43200⟩ = .days 364 := by decide
example :
    days_to_birthday (some "2000-02-29") ⟨2023, 6, 1, 0⟩ = .valueError := by decide
example :
    days_to_birthday (some "2000-02-29") ⟨2024, 3, 1, 0⟩ = .valueError := by decide

/-- One token of the persistence artifact. -/
inductive Tok where
  | nat (n : Nat)
  | str (s : String)
deriving DecidableEq

/-- Encode a natural number. -/
def encNat (n : Nat) : List Tok := [.nat n]

/-- Decode a natural number, returning the remaining tokens. -/
def decNat : List Tok → Option (Nat × List Tok)
  | Tok.nat n :: ts => some (n, ts)
  | _ => none

/-- Encode a string. -/
def encStr (s : String) : List Tok := [.str s]

/-- Decode a string. -/
def decStr : List Tok → Option (String × List Tok)
  | Tok.str s :: ts => some (s, ts)
  | _ => none

/-- Encode an optional value behind a presence flag. -/
def encOpt (enc : α → List Tok) : Option α → List Tok
  | none => [.nat 0]
  | some a => Tok.nat 1 :: enc a

/-- Decode an optional value. -/
def decOpt (dec : List Tok → Option (α × List Tok)) : List Tok → Option (Option α × List Tok)
  | Tok.nat 0 :: ts => some (none, ts)
  | Tok.nat 1 :: ts => (dec ts).map fun p => (some p.1, p.2)
  | _ => none

/-- Encode a list behind its length. -/
def encList (enc : α → List Tok) (l : List α) : List Tok :=
  Tok.nat l.length :: l.flatMap enc

/-- Decode exactly `n` values. -/
def decCount (dec : List Tok → Option (α × List Tok)) : Nat → List Tok → Option (List α × List Tok)
  | 0, ts => some ([], ts)
  | n + 1, ts => do
    let (a, ts1) ← dec ts
    let (l, ts2) ← decCount dec n ts1
    some (a :: l, ts2)

/-- Decode a length-prefixed list. -/
def decList (dec : List Tok → Option (α × List Tok)) : List Tok → Option (List α × List Tok)
  | Tok.nat n :: ts => decCount dec n ts
  | _ => none

/-- Encode an Address, all four components in order. -/
def encAddress (a : Address) : List Tok :=
  encStr a.street ++ encStr a.city ++ encStr a.postal_code ++ encStr a.country

/-- Decode an Address. -/
def decAddress (ts : List Tok) : Option (Address × List Tok) := do
  let (street, ts1) ← decStr ts
  let (city, ts2) ← decStr ts1
  let (pc, ts3) ← decStr ts2
  let (country, ts4) ← decStr ts3
  some (⟨street, city, pc, country⟩, ts4)

/-- Encode one Phone/Email/Note object: identity, then value (pickle
serialises the object graph, aliasing included, which the identity
component captures). -/
def encFieldObj (o : FieldObj) : List Tok :=
  encNat o.oid ++ encStr o.value

/-- Decode one Phone/Email/Note object. -/
def decFieldObj (ts : List Tok) : Option (FieldObj × List Tok) := do
  let (oid, ts1) ← decNat ts
  let (v, ts2) ← decStr ts1
  some (⟨oid, v⟩, ts2)

/-- Encode a Record with every nested field in collection order. -/
def encRecord (r : Record) : List Tok :=
  encOpt encNat r.id ++ encStr r.name ++ encList encFieldObj r.phones ++
    encList encFieldObj r.emails ++ encOpt encStr r.birthday ++
    encOpt encAddress r.address ++ encList encStr r.tags ++
    encList encFieldObj r.notes

/-- Decode a Record. -/
def decRecord (ts : List Tok) : Option (Record × List Tok) := do
  let (i, ts1) ← decOpt decNat ts
  let (nm, ts2) ← decStr ts1
  let (phones, ts3) ← decList decFieldObj ts2
  let (emails, ts4) ← decList decFieldObj ts3
  let (bday, ts5) ← decOpt decStr ts4
  let (addr, ts6) ← decOpt decAddress ts5
  let (tags, ts7) ← decList decStr ts6
  let (notes, ts8) ← decList decFieldObj ts7
  some (⟨i, nm, phones, emails, bday, addr, tags, notes⟩, ts8)

/-- Encode one mapping entry. -/
def encEntry (p : Nat × Record) : List Tok :=
  encNat p.1 ++ encRecord p.2

/-- Decode one mapping entry. -/
def decEntry (ts : List Tok) : Option ((Nat × Record) × List Tok) := do
  let (k, ts1) ← decNat ts
  let (r, ts2) ← decRecord ts1
  some ((k, r), ts2)

/-- Modelled from the spec: the persistence codec is `pickle.dump` /
`pickle.load` in main (lines 456-458 and 418-419), external library code;
per the spec, `save` serializes the whole mapping with full nested field
data in collection order plus the allocator state into one artifact. The
pool, a Python set, is written in ascending order. -/
def saveBook (b : AddressBook) : List Tok :=
  encList encEntry b.data ++ encNat b.next_id ++
    encList encNat (b.free_ids.sort (· ≤ ·))

/-- Modelled from the spec: `load` reconstructs an equivalent store from
the artifact — identifiers, field values, collection ordering and
allocator state exactly as saved; `none` for a corrupt artifact. -/
def loadBook (ts : List Tok) : Option AddressBook :=
  match (do
    let (entries, ts1) ← decList decEntry ts
    let (nid, ts2) ← decNat ts1
    let (free, ts3) ← decList decNat ts2
    some ((⟨entries, nid, free.toFinset⟩ : AddressBook), ts3)) with
  | some (b, []) => some b
  | _ => none

theorem decNat_encNat (n : Nat) (rest : List Tok) :
    decNat (encNat n ++ rest) = some (n, rest) := rfl

theorem decStr_encStr (s : String) (rest : List Tok) :
    decStr (encStr s ++ rest) = some (s, rest) := rfl

theorem decOptNat_encOpt (o : Option Nat) (rest : List Tok) :
    decOpt decNat (encOpt encNat o ++ rest) = some (o, rest) := by
  cases o <;> rfl

theorem decOptStr_encOpt (o : Option String) (rest : List Tok) :
    decOpt decStr (encOpt encStr o ++ rest) = some (o, rest) := by
  cases o <;> rfl

theorem decAddress_encAddress (a : Address) (rest : List Tok) :
    decAddress (encAddress a ++ rest) = some (a, rest) := rfl

theorem decOptAddress_encOpt (o : Option Address) (rest : List Tok) :
    decOpt decAddress (encOpt encAddress o ++ rest) = some (o, rest) := by
  cases o with
  | none => rfl
  | some a =>
    show decOpt decAddress (Tok.nat 1 :: (encAddress a ++ rest)) = _
    simp [decOpt, decAddress_encAddress]

theorem decCount_flatMap {α : Type} {dec : List Tok → Option (α × List Tok)}
    {enc : α → List Tok} (hdec : ∀ a rest, dec (enc a ++ rest) = some (a, rest))
    (l : List α) (rest : List Tok) :
    decCount dec l.length (l.flatMap enc ++ rest) = some (l, rest) := by
  induction l generalizing rest with
  | nil => simp [decCount]
  | cons a l ih =>
    simp [decCount, List.flatMap_cons, List.append_assoc, hdec, ih]

theorem decList_encList {α : Type} {dec : List Tok → Option (α × List Tok)}
    {enc : α → List Tok} (hdec : ∀ a rest, dec (enc a ++ rest) = some (a, rest))
    (l : List α) (rest : List Tok) :
    decList dec (encList enc l ++ rest) = some (l, rest) := by
  show decList dec (Tok.nat l.length :: (l.flatMap enc ++ rest)) = _
  simp [decList, decCount_flatMap hdec]

theorem decFieldObj_encFieldObj (o : FieldObj) (rest : List Tok) :
    decFieldObj (encFieldObj o ++ rest) = some (o, rest) := rfl

theorem decRecord_encRecord (r : Record) (rest : List Tok) :
    decRecord (encRecord r ++ rest) = some (r, rest) := by
  simp only [encRecord, List.append_assoc]
  simp [decRecord, decOptNat_encOpt, decStr_encStr, decOptStr_encOpt,
    decOptAddress_encOpt, decList_encList decStr_encStr,
    decList_encList decFieldObj_encFieldObj]

theorem decEntry_encEntry (p : Nat × Record) (rest : List Tok) :
    decEntry (encEntry p ++ rest) = some (p, rest) := by
  show decEntry (Tok.nat p.1 :: (encRecord p.2 ++ rest)) = _
  simp [decEntry, decNat, decRecord_encRecord]

/-- C3: for every store, loading the saved artifact reconstructs a store
whose identifier-to-record mapping (all nested field values and
collection orderings included), next_candidate and free_ids equal the
original's; the store with live ids {1,3,5}, next_candidate 6 and
free_ids {2,4} is the claim's instance of this. -/
theorem load_save_roundtrip (b : AddressBook) : loadBook (saveBook b) = some b := by
  have h1 := decList_encList decEntry_encEntry b.data
    (encNat b.next_id ++ encList encNat (b.free_ids.sort (· ≤ ·)))
  have h2 := decNat_encNat b.next_id (encList encNat (b.free_ids.sort (· ≤ ·)))
  have h3 := decList_encList decNat_encNat (b.free_ids.sort (· ≤ ·)) ([] : List Tok)
  rw [List.append_nil] at h3
  simp [loadBook, saveBook, List.append_assoc, h1, h2, h3, Finset.sort_toFinset]

theorem advanceId_of_not_mem (occ : Finset Nat) (fuel n : Nat) (h : n ∉ occ) :
    advanceId occ (fuel + 1) n = n := by
  simp [advanceId, h]

theorem dictInsert_of_not_mem (k : Nat) (v : Record) (l : List (Nat × Record))
    (h : k ∉ l.map Prod.fst) : dictInsert k v l = l ++ [(k, v)] := by
  induction l with
  | nil => rfl
  | cons p ps ih =>
    simp only [List.map_cons, List.mem_cons, not_or] at h
    have hpk : ¬p.1 = k := fun he => h.1 he.symm
    simp [dictInsert, hpk, ih h.2]

theorem dictErase_sublist (k : Nat) (l : List (Nat × Record)) :
    (dictErase k l).Sublist l := by
  induction l with
  | nil => simp [dictErase]
  | cons p ps ih =>
    by_cases hp : p.1 = k
    · simp [dictErase, hp, List.sublist_cons_self p ps]
    · simpa [dictErase, hp] using ih.cons₂ p

theorem mem_dictErase (k : Nat) (l : List (Nat × Record))
    (h : (l.map Prod.fst).Nodup) (p : Nat × Record) :
    p ∈ dictErase k l ↔ p ∈ l ∧ p.1 ≠ k := by
  induction l with
  | nil => simp [dictErase]
  | cons q qs ih =>
    simp only [List.map_cons, List.nodup_cons] at h
    by_cases hq : q.1 = k
    · have hqs : ∀ x ∈ qs, x.1 ≠ k := by
        intro x hx hk
        exact h.1 (by rw [hq]; exact hk ▸ List.mem_map_of_mem Prod.fst hx)
      simp only [dictErase, if_pos hq, List.mem_cons]
      constructor
      · intro hp
        exact ⟨Or.inr hp, hqs p hp⟩
      · rintro ⟨rfl | hp, hk⟩
        · exact absurd hq hk
        · exact hp
    · simp only [dictErase, if_neg hq, List.mem_cons, ih h.2]
      constructor
      · rintro (rfl | ⟨hp, hk⟩)
        · exact ⟨Or.inl rfl, hq⟩
        · exact ⟨Or.inr hp, hk⟩
      · rintro ⟨rfl | hp, hk⟩
        · exact Or.inl rfl
        · exact Or.inr ⟨hp, hk⟩

theorem keys_mem_dictErase (k : Nat) (l : List (Nat × Record))
    (h : (l.map Prod.fst).Nodup) (j : Nat) :
    j ∈ (dictErase k l).map Prod.fst ↔ j ∈ l.map Prod.fst ∧ j ≠ k := by
  simp only [List.mem_map, mem_dictErase k l h]
  constructor
  · rintro ⟨p, ⟨hp, hk⟩, rfl⟩
    exact ⟨⟨p, hp, rfl⟩, hk⟩
  · rintro ⟨⟨p, hp, rfl⟩, hk⟩
    exact ⟨p, ⟨hp, hk⟩, rfl⟩

theorem dictContains_iff (k : Nat) (l : List (Nat × Record)) :
    dictContains k l = true ↔ k ∈ l.map Prod.fst := by
  simp [dictContains, List.any_eq_true, List.mem_map]

theorem not_mem_occupied_of_inv (b : AddressBook) (h : BookInv b) :
    b.next_id ∉ b.liveIds ∪ b.free_ids := by
  simp only [Finset.mem_union]
  rintro (h1 | h1)
  · exact absurd (h.1 _ h1) (lt_irrefl _)
  · exact absurd (h.2.1 _ h1) (lt_irrefl _)

theorem add_record_eq_of_inv (b : AddressBook) (r : Record) (h : BookInv b) :
    b.add_record r =
      if hne : b.free_ids.Nonempty then
        (⟨b.data ++ [(b.free_ids.min' hne, { r with id := some (b.free_ids.min' hne) })],
          b.next_id, b.free_ids.erase (b.free_ids.min' hne)⟩, b.free_ids.min' hne)
      else
        (⟨b.data ++ [(b.next_id, { r with id := some b.next_id })],
          b.next_id + 1, b.free_ids⟩, b.next_id) := by
  have hadv : advanceId (b.liveIds ∪ b.free_ids) ((b.liveIds ∪ b.free_ids).card + 1)
      b.next_id = b.next_id :=
    advanceId_of_not_mem _ _ _ (not_mem_occupied_of_inv b h)
  simp only [AddressBook.add_record, hadv]
  by_cases hne : b.free_ids.Nonempty
  · rw [dif_pos hne, dif_pos hne]
    have hmin : b.free_ids.min' hne ∈ b.free_ids := Finset.min'_mem _ _
    have hk : b.free_ids.min' hne ∉ b.data.map Prod.fst := by
      intro hk
      have hx : b.free_ids.min' hne ∈ b.free_ids ∩ b.liveIds :=
        Finset.mem_inter.mpr ⟨hmin, List.mem_toFinset.mpr hk⟩
      rw [h.2.2.1] at hx
      exact absurd hx (Finset.not_mem_empty _)
    rw [dictInsert_of_not_mem _ _ _ hk]
  · rw [dif_neg hne, dif_neg hne]
    have hk : b.next_id ∉ b.data.map Prod.fst := by
      intro hk
      exact not_mem_occupied_of_inv b h
        (Finset.mem_union_left _ (List.mem_toFinset.mpr hk))
    rw [dictInsert_of_not_mem _ _ _ hk]

theorem liveIds_append_single (data : List (Nat × Record)) (n k : Nat) (f : Finset Nat)
    (v : Record) :
    (⟨data ++ [(k, v)], n, f⟩ : AddressBook).liveIds = (data.map Prod.fst).toFinset ∪ {k} := by
  simp [AddressBook.liveIds, List.map_append]

theorem bookInv_add (b : AddressBook) (r : Record) (h : BookInv b) :
    BookInv (b.add_record r).1 := by
  rw [add_record_eq_of_inv b r h]
  by_cases hne : b.free_ids.Nonempty
  · rw [dif_pos hne]
    have himem : b.free_ids.min' hne ∈ b.free_ids := Finset.min'_mem _ _
    have hilt : b.free_ids.min' hne < b.next_id := h.2.1 _ himem
    have hinotlive : b.free_ids.min' hne ∉ b.liveIds := by
      intro hmem
      have hx : b.free_ids.min' hne ∈ b.free_ids ∩ b.liveIds :=
        Finset.mem_inter.mpr ⟨himem, hmem⟩
      rw [h.2.2.1] at hx
      exact absurd hx (Finset.not_mem_empty _)
    refine ⟨?_, ?_, ?_, ?_⟩
    · intro j hj
      rw [liveIds_append_single] at hj
      rcases Finset.mem_union.mp hj with hj | hj
      · exact h.1 j hj
      · rw [Finset.mem_singleton.mp hj]
        exact hilt
    · intro j hj
      exact h.2.1 j (Finset.mem_of_mem_erase hj)
    · rw [liveIds_append_single]
      ext j
      simp only [Finset.mem_inter, Finset.mem_erase, Finset.mem_union,
        Finset.mem_singleton, Finset.not_mem_empty, iff_false, not_and]
      rintro ⟨hji, hjf⟩ (hjl | rfl)
      · have hx : j ∈ b.free_ids ∩ b.liveIds := Finset.mem_inter.mpr ⟨hjf, hjl⟩
        rw [h.2.2.1] at hx
        exact absurd hx (Finset.not_mem_empty _)
      · exact hji rfl
    · show ((b.data ++ [_]).map Prod.fst).Nodup
      rw [List.map_append]
      refine List.Nodup.append h.2.2.2 (List.nodup_singleton _) ?_
      intro j hj hj2
      rw [List.mem_singleton.mp hj2] at hj
      exact hinotlive (List.mem_toFinset.mpr hj)
  · rw [dif_neg hne]
    have hfe : b.free_ids = ∅ := Finset.not_nonempty_iff_eq_empty.mp hne
    have hnl : b.next_id ∉ b.liveIds := by
      intro hmem
      exact absurd (h.1 _ hmem) (lt_irrefl _)
    refine ⟨?_, ?_, ?_, ?_⟩
    · intro j hj
      rw [liveIds_append_single] at hj
      rcases Finset.mem_union.mp hj with hj | hj
      · exact Nat.lt_succ_of_lt (h.1 j hj)
      · rw [Finset.mem_singleton.mp hj]
        exact Nat.lt_succ_self _
    · intro j hj
      rw [hfe] at hj
      exact absurd hj (Finset.not_mem_empty _)
    · rw [hfe, Finset.empty_inter]
    · show ((b.data ++ [_]).map Prod.fst).Nodup
      rw [List.map_append]
      refine List.Nodup.append h.2.2.2 (List.nodup_singleton _) ?_
      intro j hj hj2
      rw [List.mem_singleton.mp hj2] at hj
      exact hnl (List.mem_toFinset.mpr hj)

theorem bookInv_delete (b : AddressBook) (i : Nat) (h : BookInv b) :
    BookInv (b.delete_record_by_id i).1 := by
  unfold AddressBook.delete_record_by_id
  by_cases hc : dictContains i b.data
  · rw [if_pos hc]
    refine ⟨?_, ?_, ?_, ?_⟩
    · intro j hj
      have hj2 := (keys_mem_dictErase i b.data h.2.2.2 j).mp (List.mem_toFinset.mp hj)
      exact h.1 j (List.mem_toFinset.mpr hj2.1)
    · intro j hj
      rcases Finset.mem_insert.mp hj with rfl | hj
      · exact h.1 j (List.mem_toFinset.mpr ((dictContains_iff _ _).mp hc))
      · exact h.2.1 j hj
    · ext j
      simp only [Finset.mem_inter, Finset.mem_insert, Finset.not_mem_empty, iff_false,
        not_and, AddressBook.liveIds, List.mem_toFinset]
      rintro (rfl | hjf) hjl
      · exact ((keys_mem_dictErase j b.data h.2.2.2 j).mp hjl).2 rfl
      · have hj2 := (keys_mem_dictErase i b.data h.2.2.2 j).mp hjl
        have hx : j ∈ b.free_ids ∩ b.liveIds :=
          Finset.mem_inter.mpr ⟨hjf, List.mem_toFinset.mpr hj2.1⟩
        rw [h.2.2.1] at hx
        exact absurd hx (Finset.not_mem_empty _)
    · exact h.2.2.2.sublist ((dictErase_sublist i b.data).map Prod.fst)
  · rw [if_neg hc]
    exact h

theorem bookInv_step (b : AddressBook) (op : BookOp) (h : BookInv b) :
    BookInv (stepOp b op) := by
  cases op with
  | add r => exact bookInv_add b r h
  | delete i => exact bookInv_delete b i h

theorem bookInv_emptyBook : BookInv AddressBook.emptyBook := by
  refine ⟨?_, ?_, ?_, ?_⟩ <;> simp [AddressBook.emptyBook, AddressBook.liveIds]

theorem bookInv_runOps (ops : List BookOp) : BookInv (runOps ops) := by
  suffices h : ∀ (l : List BookOp) (b : AddressBook), BookInv b → BookInv (l.foldl stepOp b) from
    h ops _ bookInv_emptyBook
  intro l
  induction l with
  | nil => exact fun b hb => hb
  | cons op l ih => exact fun b hb => ih _ (bookInv_step b op hb)

/-- C1: for every sequence of addRecord and delete operations starting
from a fresh store, after each operation (i.e. for every such sequence)
the pool of free ids and the set of live identifiers are disjoint. -/
theorem free_live_disjoint_after_ops (ops : List BookOp) :
    (runOps ops).free_ids ∩ (runOps ops).liveIds = ∅ :=
  (bookInv_runOps ops).2.2.1

/-- C2: addRecord assigns identifiers smallest-free-first — with a
non-empty pool the record gets the pool's minimum (removed from the pool,
next_candidate untouched) whatever next_candidate is; with an empty pool
it gets next_candidate, which is then incremented; and from a fresh store
the sequence insert A, insert B, delete 1, insert C assigns 1, 2 and then
1 again (not 3). -/
theorem add_record_smallest_free_first (b : AddressBook) (r : Record) (hInv : BookInv b) :
    (∀ hne : b.free_ids.Nonempty,
        (b.add_record r).2 = b.free_ids.min' hne ∧
        (b.add_record r).1.free_ids = b.free_ids.erase (b.free_ids.min' hne) ∧
        (b.add_record r).1.next_id = b.next_id) ∧
    (¬b.free_ids.Nonempty →
        (b.add_record r).2 = b.next_id ∧
        (b.add_record r).1.next_id = b.next_id + 1) ∧
    ((AddressBook.emptyBook.add_record (mkNamedRecord "A")).2 = 1 ∧
      ((AddressBook.emptyBook.add_record (mkNamedRecord "A")).1.add_record
        (mkNamedRecord "B")).2 = 2 ∧
      ((((AddressBook.emptyBook.add_record (mkNamedRecord "A")).1.add_record
        (mkNamedRecord "B")).1.delete_record_by_id 1).1.add_record
        (mkNamedRecord "C")).2 = 1) := by
  refine ⟨?_, ?_, by decide, by decide, by decide⟩
  · intro hne
    rw [add_record_eq_of_inv b r hInv, dif_pos hne]
    exact ⟨rfl, rfl, rfl⟩
  · intro hne
    rw [add_record_eq_of_inv b r hInv, dif_neg hne]
    exact ⟨rfl, rfl⟩

/-- A concrete store with live ids 1, 3, 5, next_candidate 6 and pool
{2, 4}, as in the spec's examples. -/
def sampleBook : AddressBook :=
  ⟨[(1, mkNamedRecord "X"), (3, mkNamedRecord "Y"), (5, mkNamedRecord "Z")], 6, {2, 4}⟩

theorem add_record_smallest_free_first_witness :
    (sampleBook.add_record (mkNamedRecord "W")).2 = 2 := by
  have h := (add_record_smallest_free_first sampleBook (mkNamedRecord "W")
    (by decide)).1 (by decide)
  rw [h.1]
  decide

/-- C5: deleting a live id removes exactly that entry from the mapping and
adds the id to the pool (next_candidate untouched, "deleted" reported);
deleting an id that is not live changes nothing at all and reports "not
found" (the only exception path, a non-numeric input, is caught inside the
method). -/
theorem delete_record_by_id_spec (b : AddressBook) (i : Nat) (hInv : BookInv b) :
    (i ∈ b.liveIds →
      (b.delete_record_by_id i).1.liveIds = b.liveIds.erase i ∧
      (∀ p : Nat × Record, p ∈ (b.delete_record_by_id i).1.data ↔ p ∈ b.data ∧ p.1 ≠ i) ∧
      (b.delete_record_by_id i).1.free_ids = insert i b.free_ids ∧
      (b.delete_record_by_id i).1.next_id = b.next_id ∧
      (b.delete_record_by_id i).2 = true) ∧
    (i ∉ b.liveIds → b.delete_record_by_id i = (b, false)) := by
  constructor
  · intro hi
    have hc : dictContains i b.data = true :=
      (dictContains_iff _ _).mpr (List.mem_toFinset.mp hi)
    unfold AddressBook.delete_record_by_id
    rw [if_pos hc]
    refine ⟨?_, ?_, rfl, rfl, rfl⟩
    · ext j
      simp only [AddressBook.liveIds, List.mem_toFinset, Finset.mem_erase,
        keys_mem_dictErase i b.data hInv.2.2.2 j]
      exact ⟨fun h => ⟨h.2, h.1⟩, fun h => ⟨h.2, h.1⟩⟩
    · exact mem_dictErase i b.data hInv.2.2.2
  · intro hi
    have hc : ¬dictContains i b.data = true := by
      rw [dictContains_iff]
      exact fun h => hi (List.mem_toFinset.mpr h)
    unfold AddressBook.delete_record_by_id
    rw [if_neg hc]

theorem delete_record_by_id_spec_witness :
    (sampleBook.delete_record_by_id 3).1.free_ids = insert 3 sampleBook.free_ids :=
  ((delete_record_by_id_spec sampleBook 3 (by decide)).1 (by decide)).2.2.1

theorem pyMinBy_decomp {α : Type} (f : α → Nat) (xs : List α) (x : α) :
    ∃ l₁ l₂, x :: xs = l₁ ++ pyMinBy f x xs :: l₂ ∧
      (∀ d ∈ x :: xs, f (pyMinBy f x xs) ≤ f d) ∧
      (∀ d ∈ l₁, f (pyMinBy f x xs) < f d) := by
  induction xs generalizing x with
  | nil =>
    refine ⟨[], [], rfl, ?_, by simp⟩
    intro d hd
    rw [List.mem_singleton.mp hd]
    exact le_refl _
  | cons y ys ih =>
    have hstep : pyMinBy f x (y :: ys) = pyMinBy f (if f y < f x then y else x) ys := rfl
    by_cases hyx : f y < f x
    · obtain ⟨l₁, l₂, hdec, hmin, hstrict⟩ := ih y
      refine ⟨x :: l₁, l₂, ?_, ?_, ?_⟩
      · rw [hstep, if_pos hyx, List.cons_append, ← hdec]
      · intro d hd
        rw [hstep, if_pos hyx]
        rcases List.mem_cons.mp hd with rfl | hd
        · exact le_of_lt (lt_of_le_of_lt (hmin y (List.mem_cons_self y ys)) hyx)
        · exact hmin d hd
      · intro d hd
        rw [hstep, if_pos hyx]
        rcases List.mem_cons.mp hd with rfl | hd
        · exact lt_of_le_of_lt (hmin y (List.mem_cons_self y ys)) hyx
        · exact hstrict d hd
    · have hxy : f x ≤ f y := le_of_not_lt hyx
      obtain ⟨l₁, l₂, hdec, hmin, hstrict⟩ := ih x
      cases l₁ with
      | nil =>
        rw [List.nil_append] at hdec
        injection hdec with h1 h2
        refine ⟨[], y :: l₂, ?_, ?_, by simp⟩
        · rw [hstep, if_neg hyx, List.nil_append, ← h1, h2]
        · intro d hd
          rw [hstep, if_neg hyx]
          rcases List.mem_cons.mp hd with rfl | hd
          · exact le_of_eq (congrArg f h1.symm)
          · rcases List.mem_cons.mp hd with rfl | hd
            · exact le_trans (le_of_eq (congrArg f h1.symm)) hxy
            · exact hmin d (List.mem_cons_of_mem x hd)
      | cons a l₁t =>
        rw [List.cons_append] at hdec
        injection hdec with h1 h2
        subst h1
        have hmx : f (pyMinBy f x ys) < f x := hstrict x (List.mem_cons_self x l₁t)
        refine ⟨x :: y :: l₁t, l₂, ?_, ?_, ?_⟩
        · rw [hstep, if_neg hyx]
          simp only [List.cons_append]
          rw [← h2]
        · intro d hd
          rw [hstep, if_neg hyx]
          rcases List.mem_cons.mp hd with rfl | hd
          · exact le_of_lt hmx
          · rcases List.mem_cons.mp hd with rfl | hd
            · exact le_of_lt (lt_of_lt_of_le hmx hxy)
            · exact hmin d (List.mem_cons_of_mem x hd)
        · intro d hd
          rw [hstep, if_neg hyx]
          rcases List.mem_cons.mp hd with rfl | hd
          · exact hmx
          · rcases List.mem_cons.mp hd with rfl | hd
            · exact lt_of_lt_of_le hmx hxy
            · exact hstrict d (List.mem_cons_of_mem x hd)

/-- C4: on a non-empty candidate list the fuzzy suggestion returns the
name of a candidate whose name has minimum Levenshtein distance to the
query and which is the first such candidate in input order (the list
splits as l₁ ++ c :: l₂ with every member of l₁ strictly farther); on the
empty list Python's `min` raises ValueError, modelled as `none`. -/
theorem suggest_correction_stable_argmin (q : String) (cands : List (Nat × Record))
    (h : cands ≠ []) :
    suggest_correction_name q [] = none ∧
    ∃ l₁ c l₂, cands = l₁ ++ c :: l₂ ∧
      suggest_correction_name q cands = some c.2.name ∧
      (∀ d ∈ cands, levenshteinStr q c.2.name ≤ levenshteinStr q d.2.name) ∧
      (∀ d ∈ l₁, levenshteinStr q c.2.name < levenshteinStr q d.2.name) := by
  refine ⟨rfl, ?_⟩
  match cands, h with
  | x :: xs, _ =>
    obtain ⟨l₁, l₂, hdec, hmin, hstrict⟩ :=
      pyMinBy_decomp (fun p => levenshteinStr q p.2.name) xs x
    exact ⟨l₁, pyMinBy (fun p => levenshteinStr q p.2.name) x xs, l₂, hdec, rfl,
      hmin, hstrict⟩

/-- A concrete candidate list for the suggestion function. -/
def sampleCands : List (Nat × Record) :=
  [(1, mkNamedRecord "ad"), (2, mkNamedRecord "ab")]

theorem suggest_correction_stable_argmin_witness :
    ∃ l₁ c l₂, sampleCands = l₁ ++ c :: l₂ ∧
      suggest_correction_name "ab" sampleCands = some c.2.name ∧
      (∀ d ∈ sampleCands, levenshteinStr "ab" c.2.name ≤ levenshteinStr "ab" d.2.name) ∧
      (∀ d ∈ l₁, levenshteinStr "ab" c.2.name < levenshteinStr "ab" d.2.name) :=
  (suggest_correction_stable_argmin "ab" sampleCands (by decide)).2

theorem pyRemove_decomp [DecidableEq α] (l : List α) (x : α) (h : x ∈ l) :
    ∃ l₁ l₂, l = l₁ ++ x :: l₂ ∧ x ∉ l₁ ∧ pyRemove l x = .ok (l₁ ++ l₂) := by
  induction l with
  | nil => cases h
  | cons y ys ih =>
    by_cases hyx : y = x
    · subst hyx
      exact ⟨[], ys, rfl, by simp, by simp [pyRemove]⟩
    · have hmem : x ∈ ys := by
        rcases List.mem_cons.mp h with rfl | hm
        · exact absurd rfl hyx
        · exact hm
      obtain ⟨l₁, l₂, hdec, hnot, hrem⟩ := ih hmem
      refine ⟨y :: l₁, l₂, by rw [hdec]; rfl, ?_, ?_⟩
      · intro hx
        rcases List.mem_cons.mp hx with rfl | hx
        · exact hyx rfl
        · exact hnot hx
      · simp [pyRemove, hyx, hrem, Except.map]

theorem pyRemove_not_mem [DecidableEq α] (l : List α) (x : α) (h : x ∉ l) :
    pyRemove l x = .error "ValueError: list.remove(x): x not in list" := by
  induction l with
  | nil => rfl
  | cons y ys ih =>
    have hyx : ¬y = x := fun he => h (he ▸ List.mem_cons_self y ys)
    have hx : x ∉ ys := fun hm => h (List.mem_cons_of_mem y hm)
    simp [pyRemove, hyx, ih hx, Except.map]

/-- A record whose phone list holds two distinct Phone objects carrying
the same value around a different one. -/
def sampleDupRec : Record :=
  ⟨none, "Jan Kowalski",
    [⟨1, "111111111"⟩, ⟨2, "222222222"⟩, ⟨3, "111111111"⟩], [], none, none, [], []⟩

/-- C7 counterexample: editPhone does not operate on values. A fresh Phone
object whose value does occur in the list raises ValueError (Field has no
`__eq__`, so `list.remove` compares identity); and editing the later of
two value-equal objects removes that object's own slot, so the resulting
value sequence differs from removing the first value occurrence and
appending. -/
theorem edit_phone_value_claim_false :
    ("111111111" ∈ sampleDupRec.phones.map FieldObj.value ∧
      sampleDupRec.edit_phone ⟨4, "111111111"⟩ ⟨5, "999999999"⟩ =
        Except.error "ValueError: list.remove(x): x not in list") ∧
    ((sampleDupRec.edit_phone ⟨3, "111111111"⟩ ⟨5, "999999999"⟩).map
        (fun r2 => r2.phones.map FieldObj.value) =
      Except.ok ["111111111", "222222222", "999999999"] ∧
      (sampleDupRec.phones.map FieldObj.value).erase "111111111" ++ ["999999999"] =
        ["222222222", "111111111", "999999999"] ∧
      (["111111111", "222222222", "999999999"] : List String) ≠
        ["222222222", "111111111", "999999999"]) :=
  ⟨⟨by decide, rfl⟩, rfl, rfl, by decide⟩

/-- C7 amended: editPhone(old, new) with old an object of the record's
phone list removes the first occurrence of that object — Field defines no
`__eq__`, so `list.remove` matches by identity, not value — and appends
new at the end: the list splits as l₁ ++ old :: l₂ with old ∉ l₁ and
becomes l₁ ++ l₂ ++ [new], so the other entries keep their relative order
and the replacement is last rather than in old's slot; with an object not
in the list (even one whose value occurs there) `list.remove` raises
ValueError. The same holds for editEmail over emails and editNote over
notes. -/
theorem edit_moves_replacement_to_end (r : Record) (oldv newv : FieldObj) :
    (oldv ∈ r.phones → ∃ l₁ l₂, r.phones = l₁ ++ oldv :: l₂ ∧ oldv ∉ l₁ ∧
        r.edit_phone oldv newv = .ok { r with phones := (l₁ ++ l₂) ++ [newv] }) ∧
    (oldv ∉ r.phones →
        r.edit_phone oldv newv = .error "ValueError: list.remove(x): x not in list") ∧
    (oldv ∈ r.emails → ∃ l₁ l₂, r.emails = l₁ ++ oldv :: l₂ ∧ oldv ∉ l₁ ∧
        r.edit_email oldv newv = .ok { r with emails := (l₁ ++ l₂) ++ [newv] }) ∧
    (oldv ∉ r.emails →
        r.edit_email oldv newv = .error "ValueError: list.remove(x): x not in list") ∧
    (oldv ∈ r.notes → ∃ l₁ l₂, r.notes = l₁ ++ oldv :: l₂ ∧ oldv ∉ l₁ ∧
        r.edit_note oldv newv = .ok { r with notes := (l₁ ++ l₂) ++ [newv] }) ∧
    (oldv ∉ r.notes →
        r.edit_note oldv newv = .error "ValueError: list.remove(x): x not in list") := by
  refine ⟨?_, ?_, ?_, ?_, ?_, ?_⟩
  · intro h
    obtain ⟨l₁, l₂, hdec, hnot, hrem⟩ := pyRemove_decomp r.phones oldv h
    exact ⟨l₁, l₂, hdec, hnot,
      by simp [Record.edit_phone, Record.remove_phone, Record.add_phone, hrem, Except.map]⟩
  · intro h
    simp [Record.edit_phone, Record.remove_phone,
      pyRemove_not_mem r.phones oldv h, Except.map]
  · intro h
    obtain ⟨l₁, l₂, hdec, hnot, hrem⟩ := pyRemove_decomp r.emails oldv h
    exact ⟨l₁, l₂, hdec, hnot,
      by simp [Record.edit_email, Record.remove_email, Record.add_email, hrem, Except.map]⟩
  · intro h
    simp [Record.edit_email, Record.remove_email,
      pyRemove_not_mem r.emails oldv h, Except.map]
  · intro h
    obtain ⟨l₁, l₂, hdec, hnot, hrem⟩ := pyRemove_decomp r.notes oldv h
    exact ⟨l₁, l₂, hdec, hnot,
      by simp [Record.edit_note, Record.remove_note, Record.add_note, hrem, Except.map]⟩
  · intro h
    simp [Record.edit_note, Record.remove_note,
      pyRemove_not_mem r.notes oldv h, Except.map]

/-- A record with one phone object, as a concrete input for removePhone. -/
def samplePhoneRec : Record :=
  ⟨none, "Jan Kowalski", [⟨1, "111111111"⟩], [], none, none, [], []⟩

/-- C8 counterexample: removePhone is no quiet value-level "not found".
An absent value raises ValueError instead of leaving the record unchanged
without incident; and even a present value raises when passed inside a
distinct object, since `list.remove` compares Phone objects by identity,
not value. -/
theorem remove_phone_absent_raises :
    (samplePhoneRec.remove_phone ⟨2, "222222222"⟩ =
        Except.error "ValueError: list.remove(x): x not in list" ∧
      (samplePhoneRec.remove_phone ⟨2, "222222222"⟩).isOk = false) ∧
    ("111111111" ∈ samplePhoneRec.phones.map FieldObj.value ∧
      samplePhoneRec.remove_phone ⟨2, "111111111"⟩ =
        Except.error "ValueError: list.remove(x): x not in list") :=
  ⟨⟨rfl, rfl⟩, by decide, rfl⟩

/-- C8 amended: removePhone removes the first entry equal to the given
object — identity equality, since Field defines no `__eq__` — when that
object is in the list; otherwise, also for a distinct object whose value
occurs in the list, `list.remove` raises ValueError and no modified
record is produced. -/
theorem remove_phone_first_or_error (r : Record) (v : FieldObj) :
    (v ∈ r.phones → ∃ l₁ l₂, r.phones = l₁ ++ v :: l₂ ∧ v ∉ l₁ ∧
        r.remove_phone v = .ok { r with phones := l₁ ++ l₂ }) ∧
    (v ∉ r.phones →
        r.remove_phone v = .error "ValueError: list.remove(x): x not in list") := by
  constructor
  · intro h
    obtain ⟨l₁, l₂, hdec, hnot, hrem⟩ := pyRemove_decomp r.phones v h
    exact ⟨l₁, l₂, hdec, hnot, by simp [Record.remove_phone, hrem, Except.map]⟩
  · intro h
    simp [Record.remove_phone, pyRemove_not_mem r.phones v h, Except.map]

theorem mem_findContrib (t : String) (r r' : Record) :
    r' ∈ findContrib t r ↔
      r' = r ∧ (nameMatches t r || phoneMatches t r || emailMatches t r) = true := by
  unfold findContrib
  by_cases h1 : nameMatches t r <;> by_cases h2 : phoneMatches t r <;>
    by_cases h3 : emailMatches t r <;> simp [h1, h2, h3]

/-- C9: a record appears in findRecord's result exactly when the term
occurs case-insensitively in its Name or case-sensitively in one of its
Phone or Email values — records matching none of the three are never
returned. -/
theorem find_record_membership (b : AddressBook) (term : String) (r : Record) :
    r ∈ b.find_record term ↔
      (∃ i, (i, r) ∈ b.data) ∧
        (nameMatches term r || phoneMatches term r || emailMatches term r) = true := by
  unfold AddressBook.find_record
  rw [List.mem_flatMap]
  constructor
  · rintro ⟨p, hp, hr⟩
    obtain ⟨rfl, hm⟩ := (mem_findContrib term p.2 r).mp hr
    exact ⟨⟨p.1, hp⟩, hm⟩
  · rintro ⟨⟨i, hi⟩, hm⟩
    exact ⟨(i, r), hi, (mem_findContrib term r r).mpr ⟨rfl, hm⟩⟩

/-- C10: a record whose Name does not match but whose phones and emails
both match is appended twice by findRecord — the phone-loop hit does not
skip the email loop. -/
theorem find_record_double_inclusion (b : AddressBook) (term : String) (i : Nat)
    (r : Record) (hmem : (i, r) ∈ b.data) (hname : nameMatches term r = false)
    (hphone : phoneMatches term r = true) (hemail : emailMatches term r = true) :
    2 ≤ (b.find_record term).count r := by
  obtain ⟨l₁, l₂, hdata⟩ := List.append_of_mem hmem
  unfold AddressBook.find_record
  rw [hdata, List.flatMap_append, List.flatMap_cons]
  have hcon : findContrib term r = [r, r] := by
    simp [findContrib, hname, hphone, hemail]
  have h2 : List.count r [r, r] = 2 := by simp
  simp only [hcon, List.count_append, h2]
  omega

/-- A record matching a term in both a phone and an email but not the
name. -/
def sampleMatchRec : Record :=
  ⟨none, "Xyz", [⟨1, "123456789"⟩], [⟨2, "a123@b.com"⟩], none, none, [], []⟩

/-- A one-record store around `sampleMatchRec`. -/
def sampleMatchBook : AddressBook := ⟨[(1, sampleMatchRec)], 2, ∅⟩

theorem find_record_double_inclusion_witness :
    2 ≤ (sampleMatchBook.find_record "123").count sampleMatchRec :=
  find_record_double_inclusion sampleMatchBook "123" 1 sampleMatchRec (by decide)
    (by decide) (by decide) (by decide)

/-- C6 counterexample: for birthday 2000-01-01 and the reference time
2024-01-02 at midnight the code returns 365 (2024 is a leap year, so
2025-01-01 is 365 days after 2024-01-02), not the claimed 364; 364 only
arises when the reference time has a positive time of day, through
timedelta's flooring. -/
theorem days_to_birthday_example_not_364 :
    days_to_birthday (some "2000-01-01") ⟨2024, 1, 2, 0⟩ = .days 365 ∧
      days_to_birthday (some "2000-01-01") ⟨2024, 1, 2, 0⟩ ≠ .days 364 :=
  ⟨by decide, by decide⟩

/-- C6 amended: with a parsed birthday whose month/day exists in the
reference year and the next one, and a midnight reference time,
days_to_birthday places the candidate at the birthday's month/day in the
current year, advances it one year exactly when it falls strictly before
today, and returns the exact signed day difference of the two dates; for
birthday 2000-01-01 it yields 365 at 2024-01-02 00:00 (and the spec's 364
at 2024-01-02 12:00, where the difference floors); a Feb-29 birthday with
a non-leap target year makes `replace` raise ValueError instead of
returning any day count. -/
theorem days_to_birthday_amended (s : String) (y0 bm bd : Nat) (now : PyDateTime)
    (hparse : parseDateYMD s = some (y0, bm, bd)) (hmid : now.secondsInDay = 0)
    (hv1 : bd ≤ daysInMonth now.year bm) (hv2 : bd ≤ daysInMonth (now.year + 1) bm) :
    days_to_birthday (some s) now =
      .days ((toOrdinal (if toOrdinal now.year bm bd < toOrdinal now.year now.month now.day
            then now.year + 1 else now.year) bm bd : Int) -
          (toOrdinal now.year now.month now.day : Int)) ∧
    days_to_birthday (some "2000-01-01") ⟨2024, 1, 2, 0⟩ = .days 365 ∧
    days_to_birthday (some "2000-01-01") ⟨2024, 1, 2, 43200⟩ = .days 364 ∧
    days_to_birthday (some "2000-02-29") ⟨2023, 6, 1, 0⟩ = .valueError := by
  have hne : ¬s = "" := by
    intro h
    rw [h, show parseDateYMD "" = none from by decide] at hparse
    simp at hparse
  refine ⟨?_, by decide, by decide, by decide⟩
  have hconv : ∀ u v : Nat,
      Int.fdiv (((86400 * u : Nat) : Int) - ((86400 * v : Nat) : Int)) 86400 =
        (u : Int) - v := by
    intro u v
    push_cast
    rw [show (86400 : Int) * u - 86400 * v = 86400 * ((u : Int) - v) by ring,
      Int.mul_fdiv_cancel_left _ (by norm_num)]
  simp only [days_to_birthday, if_neg hne, hparse, if_pos hv1, PyDateTime.toSeconds, hmid,
    Nat.add_zero]
  by_cases hlt : toOrdinal now.year bm bd < toOrdinal now.year now.month now.day
  · rw [if_pos (by omega), if_pos hv2, if_pos hlt]
    exact congrArg DaysToBirthdayResult.days (hconv _ _)
  · rw [if_neg (by omega), if_neg hlt]
    exact congrArg DaysToBirthdayResult.days (hconv _ _)

theorem days_to_birthday_amended_witness :
    days_to_birthday (some "2000-01-01") ⟨2024, 1, 2, 0⟩ = .days 365 :=
  (days_to_birthday_amended "2000-01-01" 2000 1 1 ⟨2024, 1, 2, 0⟩ (by decide) rfl
    (by decide) (by decide)).2.1
